import Mathlib

/-!
# Record service of `server.js`

A shallow embedding of the three resolvers of `src/server.js` (`getUser`,
`retrieveUsers`, `updateUser`) and of the module-level array `users` they
share.

Modelling decisions, all read off the source:

* The global array `users` is threaded explicitly: every resolver takes the
  current array (`store`) as an argument and `updateUser`, the only resolver
  that writes, also returns the array after the call.
* A person object is a structure of four fields.  `id` is a JavaScript number
  holding an integer and the `id` argument is a GraphQL `Int!`, so both are
  `Int`, on which `==` and `===` agree.  `name` is always a string (the
  argument is `String!`).  `age` is written from a nullable `String` argument,
  so the field can hold `undefined`, `null` or a string.
* Objects are stored by reference in JavaScript.  `updateUser` decides what to
  write from the `id` field alone and never writes `id`, so two positions that
  alias one object receive the same writes as two equal values would; a list
  of values is therefore faithful.
-/

namespace Server

/-- A nullable GraphQL `String` as the resolver receives it: the key is
missing from `args` (`undefined`), is an explicit `null`, or is a string. -/
inductive JsString where
  | undefined : JsString
  | null : JsString
  | str (s : String) : JsString
  deriving DecidableEq, Repr

/-- JavaScript truthiness of a nullable string: `undefined`, `null` and the
empty string are falsy, every other string is truthy. -/
def JsString.truthy : JsString → Bool
  | .undefined => false
  | .null => false
  | .str s => s != ""

/-- Strict equality `field === arg` of a string field with a nullable string
argument: true only for a string argument with the same characters. -/
def strictEq (field : String) (arg : JsString) : Bool :=
  match arg with
  | .str s => field == s
  | _ => false

/-- One element of the `users` array (`Person` in the schema). -/
structure User where
  id : Int
  name : String
  age : JsString
  shark : String
  deriving DecidableEq, Repr

/-- The literal `users` array of `server.js`, lines 23-54. -/
def users : List User :=
  [ { id := 1, name := "Brian", age := .str "21", shark := "Great White Shark" },
    { id := 2, name := "Kim", age := .str "22", shark := "Whale Shark" },
    { id := 3, name := "Faith", age := .str "23", shark := "Hammerhead Shark" },
    { id := 4, name := "Joseph", age := .str "23", shark := "Tiger Shark" },
    { id := 5, name := "Joy", age := .str "25", shark := "Hammerhead Shark" } ]

/-- The resolver `getUser`: `users.filter((user) => (user.id == userID))[0]`.
Indexing an array past its end yields `undefined`, here `none`. -/
def getUser (store : List User) (userID : Int) : Option User :=
  (store.filter (fun user => user.id == userID))[0]?

/-- The resolver `retrieveUsers`: when `args.shark` is truthy, the elements whose `shark`
field is strictly equal to it; otherwise the array itself. -/
def retrieveUsers (store : List User) (shark : JsString) : List User :=
  if shark.truthy then
    store.filter (fun user => strictEq user.shark shark)
  else
    store

/-- The callback of the `users.map(...)` pass of `updateUser`, as its effect on
the element it visits: an element whose `id` matches gets `name` and `age`
assigned, any other element is left alone. -/
def assignFields (id : Int) (name : String) (age : JsString) (user : User) : User :=
  if user.id == id then { user with name := name, age := age } else user

/-- The resolver `updateUser`: the `map` pass visits every element and writes in place (the
array it builds is dropped), then the result is
`users.filter((user) => user.id === id)[0]` on the written array.  The pair is
the returned value and the array after the call. -/
def updateUser (store : List User) (id : Int) (name : String) (age : JsString) :
    Option User × List User :=
  let written := store.map (assignFields id name age)
  ((written.filter (fun user => user.id == id))[0]?, written)

/-- A one-pass update as the specification words it: find the first record
with the given id, overwrite its name and age, and return it; return absent and
change nothing when there is none.  This definition follows the specification
text, not `server.js`; it is what `updateUser` is compared against. -/
def updateByIdSingleScan (id : Int) (name : String) (age : JsString) :
    List User → Option User × List User
  | [] => (none, [])
  | user :: rest =>
    if user.id == id then
      (some { user with name := name, age := age },
        { user with name := name, age := age } :: rest)
    else
      ((updateByIdSingleScan id name age rest).1,
        user :: (updateByIdSingleScan id name age rest).2)

/-- A call on the root resolver object `root`. -/
inductive Request where
  | user (id : Int) : Request
  | users (shark : JsString) : Request
  | updateUser (id : Int) (name : String) (age : JsString) : Request
  deriving DecidableEq, Repr

/-- What a root resolver hands back: a person or `undefined`, or an array. -/
inductive Response where
  | person (r : Option User) : Response
  | people (l : List User) : Response
  deriving DecidableEq, Repr

/-- Dispatch of one request through `root`: the response and the `users` array
after the call.  `getUser` and `retrieveUsers` contain no assignment, so the
array after them is the array before. -/
def root (store : List User) : Request → Response × List User
  | .user id => (.person (getUser store id), store)
  | .users shark => (.people (retrieveUsers store shark), store)
  | .updateUser id name age =>
    (.person (updateUser store id name age).1, (updateUser store id name age).2)

/-- The `users` array after serving a finite sequence of requests in order. -/
def serve (store : List User) : List Request → List User
  | [] => store
  | req :: rest => serve (root store req).2 rest

/-- A two-element array in which both elements carry id 7. -/
def twins : List User :=
  [ { id := 7, name := "Ann", age := .str "40", shark := "Nurse Shark" },
    { id := 7, name := "Bob", age := .str "41", shark := "Blue Shark" } ]

/-! ## Shared lemmas -/

theorem getUser_eq_find? (store : List User) (userID : Int) :
    getUser store userID = store.find? (fun user => user.id == userID) := by
  unfold getUser
  rw [← List.head?_eq_getElem?, List.filter_head?]

theorem truthy_str {s : String} (h : s ≠ "") : (JsString.str s).truthy = true := by
  simp [JsString.truthy, h]

theorem assignFields_of_eq {id : Int} {user : User} (name : String) (age : JsString)
    (h : user.id = id) :
    assignFields id name age user = { user with name := name, age := age } := by
  simp [assignFields, h]

theorem assignFields_of_ne {id : Int} {user : User} (name : String) (age : JsString)
    (h : user.id ≠ id) : assignFields id name age user = user := by
  simp [assignFields, h]

theorem assignFields_id (id : Int) (name : String) (age : JsString) (user : User) :
    (assignFields id name age user).id = user.id := by
  unfold assignFields; split <;> rfl

theorem assignFields_shark (id : Int) (name : String) (age : JsString) (user : User) :
    (assignFields id name age user).shark = user.shark := by
  unfold assignFields; split <;> rfl

theorem updateUser_snd (store : List User) (id : Int) (name : String) (age : JsString) :
    (updateUser store id name age).2 = store.map (assignFields id name age) := rfl

theorem find?_written (store : List User) (id : Int) (name : String) (age : JsString) :
    (store.map (assignFields id name age)).find? (fun user => user.id == id)
      = (store.find? (fun user => user.id == id)).map (assignFields id name age) := by
  induction store with
  | nil => rfl
  | cons user rest ih =>
    have hid := assignFields_id id name age user
    by_cases h : user.id = id
    · have hb : (user.id == id) = true := by simpa using h
      simp only [List.map_cons, List.find?_cons, hid, hb, Option.map_some']
    · have hb : (user.id == id) = false := by simpa using h
      simp only [List.map_cons, List.find?_cons, hid, hb, ih]

theorem updateUser_fst (store : List User) (id : Int) (name : String) (age : JsString) :
    (updateUser store id name age).1 = (getUser store id).map (assignFields id name age) := by
  rw [getUser_eq_find?, ← find?_written, ← getUser_eq_find?]
  rfl

theorem getUser_written (store : List User) (id : Int) (name : String) (age : JsString) :
    getUser (updateUser store id name age).2 id = (updateUser store id name age).1 := rfl

theorem written_of_missing (store : List User) (id : Int) (name : String) (age : JsString)
    (h : ∀ u ∈ store, u.id ≠ id) : store.map (assignFields id name age) = store := by
  induction store with
  | nil => rfl
  | cons user rest ih =>
    rw [List.map_cons, assignFields_of_ne name age (h user (List.mem_cons_self _ _)),
      ih (fun u hu => h u (List.mem_cons_of_mem _ hu))]

theorem getUser_of_missing (store : List User) (id : Int) (h : ∀ u ∈ store, u.id ≠ id) :
    getUser store id = none := by
  rw [getUser_eq_find?]; simpa using h

theorem getUser_some_of_mem (store : List User) (id : Int) (h : ∃ u ∈ store, u.id = id) :
    ∃ old, getUser store id = some old ∧ old ∈ store ∧ old.id = id := by
  obtain ⟨u, hu, hid⟩ := h
  cases hg : getUser store id with
  | none =>
    rw [getUser_eq_find?] at hg
    simp at hg
    exact absurd hid (hg u hu)
  | some old =>
    refine ⟨old, rfl, ?_, ?_⟩
    · rw [getUser_eq_find?] at hg; exact List.mem_of_find?_eq_some hg
    · rw [getUser_eq_find?] at hg; simpa using List.find?_some hg

theorem written_getElem? (store : List User) (id : Int) (name : String) (age : JsString)
    (i : Nat) :
    (updateUser store id name age).2[i]? = (store[i]?).map (assignFields id name age) := by
  rw [updateUser_snd, List.getElem?_map]

/-! ## Reads -/

/-- C1 (as amended): for every record list and every non-empty string tag,
`retrieveUsers` returns exactly the records whose `shark` field equals the tag,
in their original order, so it is empty when no record carries the tag; on the
initial records the tag "Hammerhead Shark" selects the records with ids 3 and 5
and the tag "Nonexistent" selects nothing. -/
theorem retrieveUsers_tag (store : List User) (tag : String) (h : tag ≠ "") :
    retrieveUsers store (.str tag) = store.filter (fun user => decide (user.shark = tag))
    ∧ List.Sublist (retrieveUsers store (.str tag)) store
    ∧ (∀ user, user ∈ retrieveUsers store (.str tag) ↔ user ∈ store ∧ user.shark = tag)
    ∧ ((∀ user ∈ store, user.shark ≠ tag) → retrieveUsers store (.str tag) = [])
    ∧ retrieveUsers users (.str "Hammerhead Shark")
        = [ { id := 3, name := "Faith", age := .str "23", shark := "Hammerhead Shark" },
            { id := 5, name := "Joy", age := .str "25", shark := "Hammerhead Shark" } ]
    ∧ retrieveUsers users (.str "Nonexistent") = [] := by
  have heq : retrieveUsers store (.str tag)
      = store.filter (fun user => decide (user.shark = tag)) := by
    unfold retrieveUsers
    rw [if_pos (truthy_str h)]
    apply List.filter_congr
    intro user _
    by_cases hs : user.shark = tag <;> simp [strictEq, hs]
  refine ⟨heq, ?_, ?_, ?_, by decide, by decide⟩
  · rw [heq]; exact List.filter_sublist _
  · intro user; rw [heq]; simp
  · intro hno; rw [heq]; simpa using hno

/-- Instance of C1 (as amended) on the initial records and the tag
"Whale Shark", which only the record with id 2 carries. -/
theorem retrieveUsers_tag_witness :
    "Whale Shark" ≠ ""
    ∧ retrieveUsers users (.str "Whale Shark")
        = [ { id := 2, name := "Kim", age := .str "22", shark := "Whale Shark" } ] :=
  ⟨by decide, (retrieveUsers_tag users "Whale Shark" (by decide)).1.trans (by decide)⟩

/-- C1 fails as stated: given the empty string as tag, on the initial records
`retrieveUsers` returns all five records, whereas no record has an empty
`shark` field, so the records whose tag equals the given string are none. -/
theorem retrieveUsers_empty_tag :
    retrieveUsers users (.str "") = users
    ∧ users.filter (fun user => decide (user.shark = "")) = []
    ∧ retrieveUsers users (.str "") ≠ users.filter (fun user => decide (user.shark = "")) := by
  decide

/-- C2: for every record list and every integer id, `getUser` returns a record
`r` exactly when `r` has that id and no record before it in the list has it
(the first match), and returns nothing exactly when no record has that id; on
the initial records id 1 gives the record named "Brian" and id 999 gives
nothing. -/
theorem getUser_first_match (store : List User) (id : Int) :
    (∀ r, getUser store id = some r ↔
        r.id = id ∧ ∃ before after, store = before ++ r :: after ∧ ∀ u ∈ before, u.id ≠ id)
    ∧ (getUser store id = none ↔ ∀ u ∈ store, u.id ≠ id)
    ∧ ((∃ u ∈ store, u.id = id) → ∃ r, getUser store id = some r)
    ∧ getUser users 1
        = some { id := 1, name := "Brian", age := .str "21", shark := "Great White Shark" }
    ∧ getUser users 999 = none := by
  have hnone : getUser store id = none ↔ ∀ u ∈ store, u.id ≠ id := by
    rw [getUser_eq_find?]; simp
  refine ⟨?_, hnone, ?_, by decide, by decide⟩
  · intro r
    rw [getUser_eq_find?, List.find?_eq_some]
    simp
  · rintro ⟨u, hu, hid⟩
    cases hg : getUser store id with
    | none => exact absurd hid (hnone.mp hg u hu)
    | some r => exact ⟨r, rfl⟩

/-- C5: for every record list, `retrieveUsers` with the tag omitted returns the
list itself, every record once and in the original order; on the initial
records these are the five records with ids 1, 2, 3, 4, 5 in that order. -/
theorem retrieveUsers_omitted (store : List User) :
    retrieveUsers store .undefined = store
    ∧ (retrieveUsers users .undefined).map User.id = [1, 2, 3, 4, 5]
    ∧ (retrieveUsers users .undefined).length = 5 := by
  refine ⟨rfl, by decide, by decide⟩

/-! ## Update -/

/-- C3: for every record list with pairwise distinct ids, every id occurring
in it and every name and age, `updateUser` returns the record that `getUser`
found for that id before the call with its name and age replaced by the
arguments (same id, same `shark`), and `getUser` on the list after the call
returns that same record. -/
theorem updateUser_present (store : List User) (id : Int) (name : String) (age : JsString)
    (_hnd : (store.map User.id).Nodup) (hmem : id ∈ store.map User.id) :
    ∃ old r, getUser store id = some old
      ∧ (updateUser store id name age).1 = some r
      ∧ r.id = id ∧ r.name = name ∧ r.age = age ∧ r.shark = old.shark
      ∧ r ∈ (updateUser store id name age).2
      ∧ getUser (updateUser store id name age).2 id = some r := by
  have hex : ∃ u ∈ store, u.id = id := by simpa using hmem
  obtain ⟨old, hold, holdmem, hid⟩ := getUser_some_of_mem store id hex
  have hret : (updateUser store id name age).1
      = some { old with name := name, age := age } := by
    rw [updateUser_fst, hold, Option.map_some', assignFields_of_eq name age hid]
  refine ⟨old, { old with name := name, age := age }, hold, hret, hid, rfl, rfl, rfl, ?_, ?_⟩
  · rw [updateUser_snd, ← assignFields_of_eq name age hid]
    exact List.mem_map_of_mem _ holdmem
  · rw [getUser_written, hret]

/-- Instance of C3: `updateUser(2, "Kimberly", "30")` on the initial records,
followed by `getUser(2)`. -/
theorem updateUser_present_witness :
    (users.map User.id).Nodup ∧ (2 : Int) ∈ users.map User.id
    ∧ (∃ old r, getUser users 2 = some old
      ∧ (updateUser users 2 "Kimberly" (.str "30")).1 = some r
      ∧ r.id = 2 ∧ r.name = "Kimberly" ∧ r.age = .str "30" ∧ r.shark = old.shark
      ∧ r ∈ (updateUser users 2 "Kimberly" (.str "30")).2
      ∧ getUser (updateUser users 2 "Kimberly" (.str "30")).2 2 = some r)
    ∧ getUser (updateUser users 2 "Kimberly" (.str "30")).2 2
        = some { id := 2, name := "Kimberly", age := .str "30", shark := "Whale Shark" } :=
  ⟨by decide, by decide,
    updateUser_present users 2 "Kimberly" (.str "30") (by decide) (by decide), by decide⟩

/-- C4: for every record list, every id that no record has and every name and
age, `updateUser` returns nothing and the list after the call is the list
before it. -/
theorem updateUser_missing (store : List User) (id : Int) (name : String) (age : JsString)
    (h : ∀ u ∈ store, u.id ≠ id) :
    (updateUser store id name age).1 = none ∧ (updateUser store id name age).2 = store := by
  constructor
  · rw [updateUser_fst, getUser_of_missing store id h]; rfl
  · rw [updateUser_snd, written_of_missing store id name age h]

/-- Instance of C4: `updateUser(999, "X", "1")` on the initial records. -/
theorem updateUser_missing_witness :
    (∀ u ∈ users, u.id ≠ 999)
    ∧ (updateUser users 999 "X" (.str "1")).1 = none
    ∧ (updateUser users 999 "X" (.str "1")).2 = users :=
  ⟨by decide, updateUser_missing users 999 "X" (.str "1") (by decide)⟩

/-- C6: for every record list and every id, name and age, the list after
`updateUser` has the same length, the same ids and the same `shark` fields
position by position, a record whose id differs from the argument is unchanged,
and a record that did change has the argument id and holds the given name and
age. -/
theorem updateUser_frame (store : List User) (id : Int) (name : String) (age : JsString) :
    (updateUser store id name age).2.length = store.length
    ∧ (updateUser store id name age).2.map User.id = store.map User.id
    ∧ (updateUser store id name age).2.map User.shark = store.map User.shark
    ∧ ∀ (i : Nat) (u : User), store[i]? = some u →
        ∃ v : User, (updateUser store id name age).2[i]? = some v
          ∧ v.id = u.id ∧ v.shark = u.shark
          ∧ (u.id ≠ id → v = u)
          ∧ (v ≠ u → u.id = id ∧ v.name = name ∧ v.age = age) := by
  refine ⟨?_, ?_, ?_, ?_⟩
  · rw [updateUser_snd, List.length_map]
  · rw [updateUser_snd, List.map_map]
    exact List.map_congr_left (fun u _ => assignFields_id id name age u)
  · rw [updateUser_snd, List.map_map]
    exact List.map_congr_left (fun u _ => assignFields_shark id name age u)
  · intro i u hu
    refine ⟨assignFields id name age u, ?_, assignFields_id _ _ _ _,
      assignFields_shark _ _ _ _, fun hne => assignFields_of_ne name age hne, ?_⟩
    · rw [written_getElem?, hu]; rfl
    · intro hchg
      by_cases hid : u.id = id
      · rw [assignFields_of_eq name age hid]; exact ⟨hid, rfl, rfl⟩
      · exact absurd (assignFields_of_ne name age hid) hchg

/-- C7 fails as stated: in `twins` both records carry id 7, and after
`updateUser(7, "Zed", "50")` the second of them holds the new name and age as
well, not its previous ones. -/
theorem updateUser_twins_both_written :
    2 ≤ (twins.filter (fun user => user.id == 7)).length
    ∧ (updateUser twins 7 "Zed" (.str "50")).2
        = [ { id := 7, name := "Zed", age := .str "50", shark := "Nurse Shark" },
            { id := 7, name := "Zed", age := .str "50", shark := "Blue Shark" } ]
    ∧ twins[1]? = some { id := 7, name := "Bob", age := .str "41", shark := "Blue Shark" }
    ∧ ((updateUser twins 7 "Zed" (.str "50")).2[1]?).map User.name ≠ (twins[1]?).map User.name
    ∧ ((updateUser twins 7 "Zed" (.str "50")).2[1]?).map User.age ≠ (twins[1]?).map User.age := by
  decide

/-- C7 (as amended): for every record list in which two or more records share
the id passed in, every record with that id has its name and age overwritten,
every record with another id is unchanged, and the returned value is the first
record with that id in the list after the call. -/
theorem updateUser_duplicates (store : List User) (id : Int) (name : String) (age : JsString)
    (hdup : 2 ≤ (store.filter (fun user => user.id == id)).length) :
    (∀ (i : Nat) (u : User), store[i]? = some u → u.id = id →
        (updateUser store id name age).2[i]? = some { u with name := name, age := age })
    ∧ (∀ (i : Nat) (u : User), store[i]? = some u → u.id ≠ id →
        (updateUser store id name age).2[i]? = some u)
    ∧ ∃ (r : User) (before after : List User),
        (updateUser store id name age).1 = some r
        ∧ (updateUser store id name age).2 = before ++ r :: after
        ∧ r.id = id ∧ r.name = name ∧ r.age = age
        ∧ ∀ u ∈ before, u.id ≠ id := by
  refine ⟨?_, ?_, ?_⟩
  · intro i u hu hid
    rw [written_getElem?, hu, Option.map_some', assignFields_of_eq name age hid]
  · intro i u hu hid
    rw [written_getElem?, hu, Option.map_some', assignFields_of_ne name age hid]
  · have hex : ∃ u ∈ store, u.id = id := by
      cases hf : store.filter (fun user => user.id == id) with
      | nil => rw [hf] at hdup; simp at hdup
      | cons u rest =>
        have hu : u ∈ store.filter (fun user => user.id == id) := by
          rw [hf]; exact List.mem_cons_self _ _
        rw [List.mem_filter] at hu
        exact ⟨u, hu.1, by simpa using hu.2⟩
    obtain ⟨old, hold, _, hid⟩ := getUser_some_of_mem store id hex
    have hret : (updateUser store id name age).1
        = some { old with name := name, age := age } := by
      rw [updateUser_fst, hold, Option.map_some', assignFields_of_eq name age hid]
    have hfind := hret
    rw [← getUser_written, getUser_eq_find?, List.find?_eq_some] at hfind
    obtain ⟨_, before, after, hsplit, hbefore⟩ := hfind
    refine ⟨_, before, after, hret, hsplit, hid, rfl, rfl, ?_⟩
    intro u hu
    simpa using hbefore u hu

/-- Instance of C7 (as amended) on `twins`, whose two records both carry
id 7. -/
theorem updateUser_duplicates_witness :
    2 ≤ (twins.filter (fun user => user.id == 7)).length
    ∧ (updateUser twins 7 "Zed" (.str "50")).2[1]?
        = some { id := 7, name := "Zed", age := .str "50", shark := "Blue Shark" } :=
  ⟨by decide,
    (updateUser_duplicates twins 7 "Zed" (.str "50") (by decide)).1 1
      { id := 7, name := "Bob", age := .str "41", shark := "Blue Shark" } (by decide) rfl⟩

/-- C8: for every record list with pairwise distinct ids and every id, name and
age, the two-pass `updateUser` of `server.js` gives the same returned value and
the same resulting list as the one-pass `updateByIdSingleScan`. -/
theorem updateUser_eq_singleScan (store : List User) (id : Int) (name : String)
    (age : JsString) (hnd : (store.map User.id).Nodup) :
    updateUser store id name age = updateByIdSingleScan id name age store := by
  induction store with
  | nil => rfl
  | cons user rest ih =>
    rw [List.map_cons, List.nodup_cons] at hnd
    obtain ⟨hnot, hrest⟩ := hnd
    have ih := ih hrest
    by_cases h : user.id = id
    · have hmiss : ∀ u ∈ rest, u.id ≠ id := by
        intro u hu hid
        exact hnot (by rw [h, ← hid]; exact List.mem_map_of_mem _ hu)
      have hb : (user.id == id) = true := by simpa using h
      have hsnd : (updateUser (user :: rest) id name age).2
          = { user with name := name, age := age } :: rest := by
        rw [updateUser_snd, List.map_cons, assignFields_of_eq name age h,
          written_of_missing rest id name age hmiss]
      have hfst : (updateUser (user :: rest) id name age).1
          = some { user with name := name, age := age } := by
        rw [updateUser_fst, getUser_eq_find?, List.find?_cons, hb, Option.map_some',
          assignFields_of_eq name age h]
      rw [updateByIdSingleScan, if_pos hb]
      exact Prod.ext hfst hsnd
    · have hb : (user.id == id) = false := by simpa using h
      have hsnd : (updateUser (user :: rest) id name age).2
          = user :: (updateUser rest id name age).2 := by
        rw [updateUser_snd, updateUser_snd, List.map_cons, assignFields_of_ne name age h]
      have hfst : (updateUser (user :: rest) id name age).1
          = (updateUser rest id name age).1 := by
        rw [updateUser_fst, updateUser_fst, getUser_eq_find?, getUser_eq_find?,
          List.find?_cons, hb]
      rw [updateByIdSingleScan, if_neg (by simp [hb]), ← ih]
      exact Prod.ext hfst hsnd

/-- Instance of C8: both implementations agree on the initial records for
`(2, "Kimberly", "30")`. -/
theorem updateUser_eq_singleScan_witness :
    (users.map User.id).Nodup
    ∧ updateUser users 2 "Kimberly" (.str "30")
        = updateByIdSingleScan 2 "Kimberly" (.str "30") users :=
  ⟨by decide, updateUser_eq_singleScan users 2 "Kimberly" (.str "30") (by decide)⟩

/-- The distinct-ids hypothesis of the comparison is needed: on `twins` the
two-pass `updateUser` writes both records while the one-pass update writes only
the first, so the resulting lists differ. -/
theorem singleScan_differs_on_twins :
    (updateUser twins 7 "Zed" (.str "50")).2
      ≠ (updateByIdSingleScan 7 "Zed" (.str "50") twins).2 := by
  decide

/-- C9: for every record list and every id occurring in it, `updateUser` called
with a name and no age (the `age` key missing, so `undefined`) returns a record
with that id, the given name and age `undefined`, and in the list after the
call every record with that id has the given name and age `undefined`,
whatever its age was before. -/
theorem updateUser_age_omitted (store : List User) (id : Int) (name : String)
    (hmem : ∃ u ∈ store, u.id = id) :
    (∃ r : User, (updateUser store id name .undefined).1 = some r
      ∧ r.id = id ∧ r.name = name ∧ r.age = .undefined
      ∧ r ∈ (updateUser store id name .undefined).2)
    ∧ (∀ u ∈ (updateUser store id name .undefined).2, u.id = id →
        u.name = name ∧ u.age = .undefined)
    ∧ (∀ (i : Nat) (u : User), store[i]? = some u → u.id = id →
        (updateUser store id name .undefined).2[i]?
          = some { u with name := name, age := .undefined }) := by
  obtain ⟨old, hold, holdmem, hid⟩ := getUser_some_of_mem store id hmem
  refine ⟨⟨{ old with name := name, age := .undefined }, ?_, hid, rfl, rfl, ?_⟩, ?_, ?_⟩
  · rw [updateUser_fst, hold, Option.map_some', assignFields_of_eq name .undefined hid]
  · rw [updateUser_snd, ← assignFields_of_eq name .undefined hid]
    exact List.mem_map_of_mem _ holdmem
  · intro u hu huid
    rw [updateUser_snd, List.mem_map] at hu
    obtain ⟨v, _, rfl⟩ := hu
    rw [assignFields_id] at huid
    rw [assignFields_of_eq name .undefined huid]
    exact ⟨rfl, rfl⟩
  · intro i u hu huid
    rw [written_getElem?, hu, Option.map_some', assignFields_of_eq name .undefined huid]

/-- Instance of C9: on the initial records, `updateUser(2, "Kimberly")` without
an age turns the record with id 2, whose age was "22", into one whose age is
`undefined`. -/
theorem updateUser_age_omitted_witness :
    (∃ u ∈ users, u.id = 2)
    ∧ users[1]? = some { id := 2, name := "Kim", age := .str "22", shark := "Whale Shark" }
    ∧ (updateUser users 2 "Kimberly" .undefined).2[1]?
        = some { id := 2, name := "Kimberly", age := .undefined, shark := "Whale Shark" } :=
  ⟨by decide, by decide,
    (updateUser_age_omitted users 2 "Kimberly" (by decide)).2.2 1
      { id := 2, name := "Kim", age := .str "22", shark := "Whale Shark" } (by decide) rfl⟩

/-! ## Reachable states -/

theorem root_ids (store : List User) (req : Request) :
    (root store req).2.map User.id = store.map User.id := by
  cases req with
  | user id => rfl
  | users shark => rfl
  | updateUser id name age =>
    show (store.map (assignFields id name age)).map User.id = store.map User.id
    rw [List.map_map]
    exact List.map_congr_left (fun u _ => assignFields_id id name age u)

theorem root_sharks (store : List User) (req : Request) :
    (root store req).2.map User.shark = store.map User.shark := by
  cases req with
  | user id => rfl
  | users shark => rfl
  | updateUser id name age =>
    show (store.map (assignFields id name age)).map User.shark = store.map User.shark
    rw [List.map_map]
    exact List.map_congr_left (fun u _ => assignFields_shark id name age u)

theorem serve_ids (store : List User) (reqs : List Request) :
    (serve store reqs).map User.id = store.map User.id := by
  induction reqs generalizing store with
  | nil => rfl
  | cons req rest ih => rw [serve, ih, root_ids]

theorem serve_sharks (store : List User) (reqs : List Request) :
    (serve store reqs).map User.shark = store.map User.shark := by
  induction reqs generalizing store with
  | nil => rfl
  | cons req rest ih => rw [serve, ih, root_sharks]

theorem matches_le_one (store : List User) (id : Int) (hnd : (store.map User.id).Nodup) :
    (store.filter (fun user => user.id == id)).length ≤ 1 := by
  induction store with
  | nil => simp
  | cons user rest ih =>
    rw [List.map_cons, List.nodup_cons] at hnd
    by_cases h : user.id = id
    · have hmiss : rest.filter (fun user => user.id == id) = [] := by
        rw [List.filter_eq_nil_iff]
        intro u hu hb
        have hid : u.id = id := by simpa using hb
        exact hnd.1 (by rw [h, ← hid]; exact List.mem_map_of_mem _ hu)
      have hb : (user.id == id) = true := by simpa using h
      simp only [List.filter_cons, hb, hmiss, if_true, List.length_singleton, le_refl]
    · have hb : (user.id == id) = false := by simpa using h
      simp only [List.filter_cons, hb]
      exact ih hnd.2

/-- C10: in the state reached from the initial five records by any finite
sequence of `user`, `users` and `updateUser` calls with arbitrary arguments, the
ids are 1, 2, 3, 4, 5 in that order (pairwise distinct), the `shark` fields are
the initial ones, a `user` or `users` call leaves the state as it is, and for
each id at most one record matches. -/
theorem serve_identity (reqs : List Request) :
    (serve users reqs).map User.id = [1, 2, 3, 4, 5]
    ∧ ((serve users reqs).map User.id).Nodup
    ∧ (serve users reqs).map User.shark
        = ["Great White Shark", "Whale Shark", "Hammerhead Shark", "Tiger Shark",
            "Hammerhead Shark"]
    ∧ (∀ id : Int, (root (serve users reqs) (.user id)).2 = serve users reqs)
    ∧ (∀ shark : JsString, (root (serve users reqs) (.users shark)).2 = serve users reqs)
    ∧ (∀ id : Int, ((serve users reqs).filter (fun user => user.id == id)).length ≤ 1) := by
  have hids : (serve users reqs).map User.id = [1, 2, 3, 4, 5] := by
    rw [serve_ids]; decide
  have hnd : ((serve users reqs).map User.id).Nodup := by
    rw [hids]; decide
  refine ⟨hids, hnd, ?_, fun _ => rfl, fun _ => rfl, fun id => matches_le_one _ id hnd⟩
  rw [serve_sharks]; decide

end Server
